import Mathlib

/-!
# lego: certificate service (le/skin/certificate.go) and Cloudflare zone cache
(providers/dns/cloudflare/client.go)

A shallow embedding of the two Go source files.  Go functions that talk to the
outside world become state-passing functions over an explicit world; every
outgoing request is appended to a log, so that "exactly one request" is a
statement about that log.
-/

/-- A Go error value.  The sentinel io.EOF is kept apart from every other error,
because ioutil.ReadAll compares against it. -/
inductive GoError where
  | EOF : GoError
  | new (msg : String) : GoError
deriving DecidableEq, Repr

namespace Skin

/-- A byte of a response body. -/
abbrev Byte := UInt8

/-- maxBodySize is the maximum size of body that we will read (certificate.go, line 11). -/
def maxBodySize : Nat := 1024 * 1024

/-- bytes.MinRead: the free space ioutil.ReadAll guarantees to every Read call.
The buffer may have more; the model offers exactly this much, and a stream
delivers what it has whatever the space. -/
def MinRead : Nat := 512

/-- The error net/http reports for a Read beyond the limit of a MaxBytesReader. -/
def errTooLarge : GoError := GoError.new "http: request body too large"

/-- The body stream of a response (an io.Reader over the network).
data is what is still to be delivered, final is the error of the Read that finds
nothing left (io.EOF for a body that ends normally, any other error for a stream
that breaks), and a single Read delivers at most chunk + 1 bytes. -/
structure Body where
  data : List Byte
  final : GoError
  chunk : Nat
deriving Repr

/-- One Read call on the body stream with a buffer of k free bytes:
the bytes delivered, the error, and the stream afterwards. -/
def Body.Read (b : Body) (k : Nat) : List Byte × Option GoError × Body :=
  if k = 0 then ([], none, b)
  else
    match b.data with
    | [] => ([], some b.final, b)
    | _ :: _ =>
      let t := min k (b.chunk + 1)
      (b.data.take t, none, ⟨b.data.drop t, b.final, b.chunk⟩)

/-- The reader returned by http.MaxBytesReader(nil, r, n): the wrapped stream,
the bytes still allowed, and the sticky error. -/
structure maxBytesReader where
  r : Body
  n : Nat
  err : Option GoError
deriving Repr

/-- The call http.MaxBytesReader(nil, r, n). -/
def MaxBytesReader (r : Body) (n : Nat) : maxBytesReader := ⟨r, n, none⟩

/-- One Read call on a maxBytesReader (net/http): at most n + 1 bytes are asked of
the wrapped stream; a Read that gets more than n bytes hands out n of them with
the error "http: request body too large", which then sticks. -/
def maxBytesReader.Read (l : maxBytesReader) (k : Nat) :
    List Byte × Option GoError × maxBytesReader :=
  match l.err with
  | some e => ([], some e, l)
  | none =>
    if k = 0 then ([], none, l)
    else
      let k1 := if k > l.n + 1 then l.n + 1 else k
      match l.r.Read k1 with
      | (p, e, r1) =>
        if p.length ≤ l.n then (p, e, ⟨r1, l.n - p.length, e⟩)
        else (p.take l.n, some errTooLarge, ⟨r1, 0, some errTooLarge⟩)

/-- The loop of ioutil.ReadAll (bytes.Buffer.ReadFrom): read into the buffer until
an error; io.EOF ends the loop with a nil error, any other error is returned with
the bytes read so far.  The fuel bounds the number of Read calls; none means the
loop has not finished within it. -/
def readFrom : Nat → maxBytesReader → List Byte → Option (List Byte × Option GoError)
  | 0, _, _ => none
  | fuel + 1, l, buf =>
    match l.Read MinRead with
    | (p, some GoError.EOF, _) => some (buf ++ p, none)
    | (p, some e, _) => some (buf ++ p, some e)
    | (p, none, l1) => readFrom fuel l1 (buf ++ p)

/-- The call ioutil.ReadAll(r), with the fuel of its loop. -/
def ReadAll (fuel : Nat) (l : maxBytesReader) : Option (List Byte × Option GoError) :=
  readFrom fuel l []

/-- One entry of a Link header: the target between the angle brackets and the
relation name. -/
structure LinkEntry where
  target : String
  rel : String
deriving DecidableEq, Repr

/-- The part of http.Header that Get looks at: the entries of the Link headers,
in the order they appear in the response. -/
structure Header where
  Link : List LinkEntry
deriving Repr

/-- Modelled from the spec: getLink, the helper of package skin that looks a
relation up in the Link headers, is not among the source files.  The spec says
"Response Link headers are parsed for named relations (notably up, used for
issuer-chain discovery)"; the model returns the target of the first entry with
the relation asked for, and the empty string when there is none. -/
def getLink (header : Header) (rel : String) : String :=
  match header.Link.find? (fun e => e.rel == rel) with
  | some e => e.target
  | none => ""

/-- An http.Response as far as Get uses it. -/
structure Response where
  Header : Header
  Body : Body
deriving Repr

/-- The message of a revocation request (le.RevokeCertMessage). -/
structure RevokeCertMessage where
  Certificate : String
deriving DecidableEq, Repr

/-- The directory of the server, as far as Revoke uses it. -/
structure Directory where
  RevokeCertURL : String
deriving DecidableEq, Repr

/-- What Get and Revoke do that can be observed from outside. -/
inductive Event where
  | postAsGet (uri : String) : Event
  | post (uri : String) (payload : RevokeCertMessage) : Event
  | readBody : Event
  | getLink (rel : String) : Event
deriving DecidableEq, Repr

/-- The world a service call runs in: the state of the transport (nonces,
connections, the server) and the log of what has been done. -/
structure World (σ : Type) where
  net : σ
  log : List Event

/-- The transport core behind a service (c.core).  postAsGet and post are the
signed requests of the core, which is not among the source files: they are
parameters, arbitrary functions of the target and the state of the transport.
A Go result (resp, err) with err not nil is Except.error err, the response
being ignored by Get and Revoke in that case.  The directory is the one the
core has cached. -/
structure Core (σ : Type) where
  directory : Directory
  postAsGet : String → σ → Except GoError Response × σ
  post : String → RevokeCertMessage → σ → Except GoError Response × σ

/-- Modelled from the spec: Core.GetDirectory is not among the source files.
The spec says the directory is fetched once and cached, with accessors for the
operation URLs: the accessor returns the cached directory and sends nothing. -/
def Core.GetDirectory {σ : Type} (c : Core σ) : Directory := c.directory

/-- The three results of Get: the certificate bytes (none is the nil slice),
the up link, and the error (none is nil). -/
structure GetResult where
  cert : Option (List Byte)
  up : String
  err : Option GoError
deriving DecidableEq, Repr

/-- CertificateService.Get (certificate.go, lines 15 to 32). -/
def Get {σ : Type} (c : Core σ) (fuel : Nat) (certURL : String) (w : World σ) :
    Option (GetResult × World σ) :=
  match c.postAsGet certURL w.net with
  | (Except.error err, net1) =>
    some (⟨none, "", some err⟩, ⟨net1, w.log ++ [Event.postAsGet certURL]⟩)
  | (Except.ok resp, net1) =>
    match ReadAll fuel (MaxBytesReader resp.Body maxBodySize) with
    | none => none
    | some (_, some err) =>
      some (⟨none, "", some err⟩,
        ⟨net1, w.log ++ [Event.postAsGet certURL, Event.readBody]⟩)
    | some (cert, none) =>
      some (⟨some cert, getLink resp.Header "up", none⟩,
        ⟨net1, w.log ++ [Event.postAsGet certURL, Event.readBody, Event.getLink "up"]⟩)

/-- CertificateService.Revoke (certificate.go, lines 34 to 37). -/
def Revoke {σ : Type} (c : Core σ) (req : RevokeCertMessage) (w : World σ) :
    Option GoError × World σ :=
  match c.post c.GetDirectory.RevokeCertURL req w.net with
  | (Except.error err, net1) =>
    (some err, ⟨net1, w.log ++ [Event.post c.GetDirectory.RevokeCertURL req]⟩)
  | (Except.ok _, net1) =>
    (none, ⟨net1, w.log ++ [Event.post c.GetDirectory.RevokeCertURL req]⟩)

/-- The error ioutil.ReadAll reports for the error that ended the stream:
io.EOF is a normal end. -/
def finalErr : GoError → Option GoError
  | GoError.EOF => none
  | e => some e

/-- Modelled from the spec: the fetcher that assembles the bundle is a caller of
Get that is not among the source files.  The spec says "fetch the certificate via
postAsGet at the order's certificate URL; the response's up link relation, if
present, identifies an issuer certificate to fetch in turn, recursively, forming
the chain".  The model calls Get at the URL, stops with the error of a failed Get,
and otherwise puts the certificate in front of the chain fetched at the up link,
when there is one.  depth bounds the number of links followed; none means that
the chain (or a body) has not ended within the bounds. -/
def fetchChain {σ : Type} (c : Core σ) (fuel : Nat) :
    Nat → String → World σ → Option (Except GoError (List (List Byte)) × World σ)
  | 0, _, _ => none
  | depth + 1, certURL, w =>
    match Get c fuel certURL w with
    | none => none
    | some (r, w1) =>
      match r.err with
      | some e => some (Except.error e, w1)
      | none =>
        if r.up = "" then some (Except.ok [r.cert.getD []], w1)
        else
          match fetchChain c fuel depth r.up w1 with
          | some (Except.ok rest, w2) => some (Except.ok (r.cert.getD [] :: rest), w2)
          | other => other

/-- A response with the given Link entries whose body arrives whole. -/
def wholeResponse (links : List LinkEntry) (body : List Byte) : Response :=
  ⟨⟨links⟩, ⟨body, GoError.EOF, 1⟩⟩

/-- A response whose body stream breaks after three bytes. -/
def brokenResponse : Response :=
  ⟨⟨[⟨"https://ca.test/issuer/a", "up"⟩]⟩,
    ⟨[0x30, 0x82, 0x01], GoError.new "unexpected EOF", 1⟩⟩

/-- A response whose body arrives whole but is one byte longer than maxBodySize. -/
def hugeResponse : Response :=
  wholeResponse [⟨"https://ca.test/issuer/a", "up"⟩] (List.replicate (maxBodySize + 1) 0)

/-- A small server: a leaf certificate whose up link leads to issuer A, whose up
link leads to the root B; one certificate whose body stream breaks and one whose
body is too long, both with an up link to issuer A; every other URL is refused.
Every revocation is refused as already revoked. -/
def demoCore : Core Nat where
  directory := ⟨"https://ca.test/acme/revoke-cert"⟩
  postAsGet := fun uri nonce =>
    if uri = "https://ca.test/cert/leaf" then
      (Except.ok (wholeResponse [⟨"https://ca.test/issuer/a", "up"⟩] [1, 2, 3]), nonce + 1)
    else if uri = "https://ca.test/issuer/a" then
      (Except.ok (wholeResponse [⟨"https://ca.test/issuer/b", "up"⟩] [4, 5]), nonce + 1)
    else if uri = "https://ca.test/issuer/b" then
      (Except.ok (wholeResponse [⟨"https://ca.test/", "index"⟩] [6]), nonce + 1)
    else if uri = "https://ca.test/cert/broken" then
      (Except.ok brokenResponse, nonce + 1)
    else if uri = "https://ca.test/cert/huge" then
      (Except.ok hugeResponse, nonce + 1)
    else
      (Except.error (GoError.new "urn:ietf:params:acme:error:malformed"), nonce + 1)
  post := fun _ _ nonce =>
    (Except.error (GoError.new "urn:ietf:params:acme:error:alreadyRevoked"), nonce + 1)

/-- The world before the first request. -/
def demoWorld : World Nat := ⟨0, []⟩

end Skin

namespace Cloudflare

/-- An *http.Client, known by the address of the object. -/
abbrev HTTPClient := Nat

/-- What a Cloudflare client authenticates with. -/
inductive Credentials where
  | keyEmail (key email : String) : Credentials
  | token (token : String) : Credentials
deriving DecidableEq, Repr

/-- A *cloudflare.API: the address of the object (two clients are the same client
when they are the same object), the credentials it was built from and the HTTP
client it was given. -/
structure API where
  addr : Nat
  cred : Credentials
  httpClient : HTTPClient
deriving DecidableEq, Repr

/-- The fields of Config that newClient reads (the type is declared outside the
source files). -/
structure Config where
  AuthEmail : String
  AuthKey : String
  AuthToken : String
  ZoneToken : String
  HTTPClient : HTTPClient
deriving DecidableEq, Repr

/-- The constructors of cloudflare-go, as far as newClient depends on them: which
arguments each one refuses, and with which error.  They are parameters. -/
structure Library where
  NewErr : String → String → HTTPClient → Option GoError
  NewWithAPITokenErr : String → HTTPClient → Option GoError

/-- The call cloudflare.New(key, email, cloudflare.HTTPClient(h)): an error, or a
newly allocated client; heap is the next free address. -/
def Library.New (lib : Library) (key email : String) (h : HTTPClient) (heap : Nat) :
    Except GoError API × Nat :=
  match lib.NewErr key email h with
  | some err => (Except.error err, heap)
  | none => (Except.ok ⟨heap, Credentials.keyEmail key email, h⟩, heap + 1)

/-- The call cloudflare.NewWithAPIToken(token, cloudflare.HTTPClient(h)). -/
def Library.NewWithAPIToken (lib : Library) (token : String) (h : HTTPClient) (heap : Nat) :
    Except GoError API × Nat :=
  match lib.NewWithAPITokenErr token h with
  | some err => (Except.error err, heap)
  | none => (Except.ok ⟨heap, Credentials.token token, h⟩, heap + 1)

/-- A Go map[string]string. -/
abbrev GoMap := String → Option String

/-- The expression m[k] of Go: the zero value when the key is absent. -/
def GoMap.get (m : GoMap) (k : String) : String := (m k).getD ""

/-- The statement m[k] = v of Go. -/
def GoMap.set (m : GoMap) (k v : String) : GoMap := fun x => if x = k then some v else m x

/-- The expression make(map[string]string). -/
def GoMap.make : GoMap := fun _ => none

/-- The struct metaClient (client.go, lines 11 to 17).  The lock zonesMu guards
zones; in this sequential model every method runs alone and the lock is left out. -/
structure metaClient where
  clientEdit : API
  clientRead : API
  zones : GoMap

/-- The function newClient (client.go, lines 19 to 60). -/
def newClient (lib : Library) (config : Config) (heap : Nat) :
    Except GoError metaClient × Nat :=
  if config.AuthToken = "" then
    match lib.New config.AuthKey config.AuthEmail config.HTTPClient heap with
    | (Except.error err, heap1) => (Except.error err, heap1)
    | (Except.ok client, heap1) => (Except.ok ⟨client, client, GoMap.make⟩, heap1)
  else
    match lib.NewWithAPIToken config.AuthToken config.HTTPClient heap with
    | (Except.error err, heap1) => (Except.error err, heap1)
    | (Except.ok dns, heap1) =>
      if config.ZoneToken = "" ∨ config.ZoneToken = config.AuthToken then
        (Except.ok ⟨dns, dns, GoMap.make⟩, heap1)
      else
        match lib.NewWithAPIToken config.ZoneToken config.HTTPClient heap1 with
        | (Except.error err, heap2) => (Except.error err, heap2)
        | (Except.ok zone, heap2) => (Except.ok ⟨dns, zone, GoMap.make⟩, heap2)

/-- A cloudflare.Zone, as far as ZoneIDByName reads it. -/
structure Zone where
  ID : String
  Name : String
deriving DecidableEq, Repr

/-- A cloudflare.DNSRecord. -/
structure DNSRecord where
  ID : String
  Type_ : String
  Name : String
  Content : String
  TTL : Nat
deriving DecidableEq, Repr

/-- A cloudflare.DNSRecordResponse. -/
structure DNSRecordResponse where
  Result : DNSRecord
deriving DecidableEq, Repr

/-- A call on a Cloudflare client: the client it is made on and its arguments. -/
inductive Call where
  | ListZones (client : API) (name : String) : Call
  | CreateDNSRecord (client : API) (zoneID : String) (rr : DNSRecord) : Call
  | DNSRecords (client : API) (zoneID : String) (rr : DNSRecord) : Call
  | DeleteDNSRecord (client : API) (zoneID recordID : String) : Call
deriving DecidableEq, Repr

/-- The client a call is made on. -/
def Call.client : Call → API
  | Call.ListZones c _ => c
  | Call.CreateDNSRecord c _ _ => c
  | Call.DNSRecords c _ _ => c
  | Call.DeleteDNSRecord c _ _ => c

/-- Whether a call lists zones (the other three read or change DNS records). -/
def Call.isListZones : Call → Bool
  | Call.ListZones _ _ => true
  | _ => false

/-- The methods of *cloudflare.API that metaClient calls, answered by the remote
service: parameters, arbitrary functions of the client, the arguments and the
remote state.  A result pair is the Go pair (value, error). -/
structure Service (ρ : Type) where
  ListZones : API → String → ρ → (List Zone × Option GoError) × ρ
  CreateDNSRecord : API → String → DNSRecord → ρ →
    (Option DNSRecordResponse × Option GoError) × ρ
  DNSRecords : API → String → DNSRecord → ρ → (List DNSRecord × Option GoError) × ρ
  DeleteDNSRecord : API → String → String → ρ → Option GoError × ρ

/-- The remote state and the log of the calls made so far. -/
structure Env (ρ : Type) where
  remote : ρ
  log : List Call

/-- Modelled from the spec: dns01.UnFqdn (package challenge/dns01) is not among
the source files; the lookup is made with the name stripped of its trailing dot:
a name that ends in a dot loses that one dot, any other name is unchanged. -/
def UnFqdn (name : String) : String :=
  match name.data.reverse with
  | '.' :: rest => String.mk rest.reverse
  | _ => name

/-- The method metaClient.CreateDNSRecord (client.go, lines 62 to 64). -/
def metaClient.CreateDNSRecord {ρ : Type} (svc : Service ρ) (m : metaClient)
    (zoneID : String) (rr : DNSRecord) (env : Env ρ) :
    (Option DNSRecordResponse × Option GoError) × Env ρ :=
  match svc.CreateDNSRecord m.clientEdit zoneID rr env.remote with
  | (res, remote1) => (res, ⟨remote1, env.log ++ [Call.CreateDNSRecord m.clientEdit zoneID rr]⟩)

/-- The method metaClient.DNSRecords (client.go, lines 66 to 68). -/
def metaClient.DNSRecords {ρ : Type} (svc : Service ρ) (m : metaClient)
    (zoneID : String) (rr : DNSRecord) (env : Env ρ) :
    (List DNSRecord × Option GoError) × Env ρ :=
  match svc.DNSRecords m.clientEdit zoneID rr env.remote with
  | (res, remote1) => (res, ⟨remote1, env.log ++ [Call.DNSRecords m.clientEdit zoneID rr]⟩)

/-- The method metaClient.DeleteDNSRecord (client.go, lines 70 to 72). -/
def metaClient.DeleteDNSRecord {ρ : Type} (svc : Service ρ) (m : metaClient)
    (zoneID recordID : String) (env : Env ρ) : Option GoError × Env ρ :=
  match svc.DeleteDNSRecord m.clientEdit zoneID recordID env.remote with
  | (res, remote1) =>
    (res, ⟨remote1, env.log ++ [Call.DeleteDNSRecord m.clientEdit zoneID recordID]⟩)

/-- The error of ZoneIDByName for a zone that is not found. -/
def errZoneNotFound (fdqn : String) : GoError :=
  GoError.new ("cloudflare dns provider: zone " ++ fdqn ++ " not found")

/-- The method metaClient.ZoneIDByName (client.go, lines 74 to 101): the ID and the
error returned, the metaClient afterwards, and the environment afterwards. -/
def metaClient.ZoneIDByName {ρ : Type} (svc : Service ρ) (m : metaClient)
    (fdqn : String) (env : Env ρ) : (String × Option GoError) × metaClient × Env ρ :=
  let id := m.zones.get fdqn
  if id ≠ "" then ((id, none), m, env)
  else
    match svc.ListZones m.clientRead (UnFqdn fdqn) env.remote with
    | ((_, some err), remote1) =>
      (("", some err), m, ⟨remote1, env.log ++ [Call.ListZones m.clientRead (UnFqdn fdqn)]⟩)
    | ((zones, none), remote1) =>
      let id1 := match zones with
        | z :: _ => z.ID
        | [] => id
      if id1 = "" then
        (("", some (errZoneNotFound fdqn)), m,
          ⟨remote1, env.log ++ [Call.ListZones m.clientRead (UnFqdn fdqn)]⟩)
      else
        ((id1, none), ⟨m.clientEdit, m.clientRead, m.zones.set fdqn id1⟩,
          ⟨remote1, env.log ++ [Call.ListZones m.clientRead (UnFqdn fdqn)]⟩)

/-- One operation on a metaClient. -/
inductive Op where
  | CreateDNSRecord (zoneID : String) (rr : DNSRecord) : Op
  | DNSRecords (zoneID : String) (rr : DNSRecord) : Op
  | DeleteDNSRecord (zoneID recordID : String) : Op
  | ZoneIDByName (fdqn : String) : Op
deriving DecidableEq, Repr

/-- Run one operation, dropping its result. -/
def step {ρ : Type} (svc : Service ρ) (st : metaClient × Env ρ) (op : Op) :
    metaClient × Env ρ :=
  match op with
  | Op.CreateDNSRecord zoneID rr => (st.1, (st.1.CreateDNSRecord svc zoneID rr st.2).2)
  | Op.DNSRecords zoneID rr => (st.1, (st.1.DNSRecords svc zoneID rr st.2).2)
  | Op.DeleteDNSRecord zoneID recordID =>
    (st.1, (st.1.DeleteDNSRecord svc zoneID recordID st.2).2)
  | Op.ZoneIDByName fdqn => (st.1.ZoneIDByName svc fdqn st.2).2

/-- Run a sequence of operations, one after the other. -/
def run {ρ : Type} (svc : Service ρ) (ops : List Op) (st : metaClient × Env ρ) :
    metaClient × Env ρ :=
  ops.foldl (step svc) st

/-- A library whose constructors refuse empty credentials only. -/
def demoLibrary : Library where
  NewErr := fun key email _ =>
    if key = "" ∨ email = "" then some (GoError.new "invalid credentials: key & email must not be empty")
    else none
  NewWithAPITokenErr := fun token _ =>
    if token = "" then some (GoError.new "invalid credentials: API Token must not be empty")
    else none

/-- A configuration with a DNS token and a separate zone token. -/
def demoConfig : Config := ⟨"", "", "dns-edit-token", "zone-read-token", 0⟩

/-- The metaClient newClient builds from demoConfig, starting at address 100. -/
def demoClient : metaClient :=
  ⟨⟨100, Credentials.token "dns-edit-token", 0⟩,
    ⟨101, Credentials.token "zone-read-token", 0⟩, GoMap.make⟩

/-- A remote service whose zone list changes: the state counts the calls; the
first ListZones finds zone "z1", every later one finds no zone at all. -/
def demoService : Service Nat where
  ListZones := fun _ name calls =>
    if calls = 0 then (([⟨"z1", name⟩], none), calls + 1) else (([], none), calls + 1)
  CreateDNSRecord := fun _ _ rr calls => ((some ⟨rr⟩, none), calls + 1)
  DNSRecords := fun _ _ rr calls => (([rr], none), calls + 1)
  DeleteDNSRecord := fun _ _ _ calls => (none, calls + 1)

/-- The environment before the first call. -/
def demoEnv : Env Nat := ⟨0, []⟩

end Cloudflare

namespace Skin

theorem maxBytesReader_Read_cons (a : Byte) (rest : List Byte) (final : GoError)
    (chunk n : Nat) :
    ∃ t, 1 ≤ t ∧ t ≤ n + 1 ∧
      maxBytesReader.Read ⟨⟨a :: rest, final, chunk⟩, n, none⟩ MinRead =
        if ((a :: rest).take t).length ≤ n then
          ((a :: rest).take t, none,
            ⟨⟨(a :: rest).drop t, final, chunk⟩, n - ((a :: rest).take t).length, none⟩)
        else
          (((a :: rest).take t).take n, some errTooLarge,
            ⟨⟨(a :: rest).drop t, final, chunk⟩, 0, some errTooLarge⟩) := by
  refine ⟨min (if MinRead > n + 1 then n + 1 else MinRead) (chunk + 1), ?_, ?_, ?_⟩
  · unfold MinRead; split <;> omega
  · unfold MinRead; split <;> omega
  · have hk : (if MinRead > n + 1 then n + 1 else MinRead) ≠ 0 := by
      unfold MinRead; split <;> omega
    simp only [maxBytesReader.Read, Body.Read, hk, if_false]
    simp [MinRead]

theorem maxBytesReader_Read_nil (final : GoError) (chunk n : Nat) :
    maxBytesReader.Read ⟨⟨[], final, chunk⟩, n, none⟩ MinRead =
      ([], some final, ⟨⟨[], final, chunk⟩, n, some final⟩) := by
  have hk : (if MinRead > n + 1 then n + 1 else MinRead) ≠ 0 := by
    unfold MinRead; split <;> omega
  simp only [maxBytesReader.Read, Body.Read, hk, if_false]
  simp [MinRead]

theorem readFrom_eq (fuel : Nat) : ∀ (r : Body) (n : Nat) (buf : List Byte),
    r.data.length + 1 ≤ fuel →
    readFrom fuel ⟨r, n, none⟩ buf =
      some (if r.data.length ≤ n then (buf ++ r.data, finalErr r.final)
            else (buf ++ r.data.take n, some errTooLarge)) := by
  induction fuel with
  | zero => intro r n buf h; omega
  | succ f ih =>
    intro r n buf h
    obtain ⟨data, final, chunk⟩ := r
    cases data with
    | nil =>
      simp only [readFrom, maxBytesReader_Read_nil]
      cases final <;> simp [finalErr]
    | cons a rest =>
      obtain ⟨t, ht1, ht2, hread⟩ := maxBytesReader_Read_cons a rest final chunk n
      simp only [readFrom, hread]
      have hlen : ((a :: rest).take t).length = min t (a :: rest).length :=
        List.length_take t (a :: rest)
      by_cases hp : ((a :: rest).take t).length ≤ n
      · rw [if_pos hp]
        simp only
        have hdrop : ((a :: rest).drop t).length = (a :: rest).length - t :=
          List.length_drop t (a :: rest)
        have hfuel : (Body.mk ((a :: rest).drop t) final chunk).data.length + 1 ≤ f := by
          simp only [hdrop]
          simp only [List.length_cons] at h ⊢
          omega
        rw [ih ⟨(a :: rest).drop t, final, chunk⟩ _ _ hfuel]
        simp only [List.append_assoc, List.take_append_drop]
        by_cases hall : (a :: rest).length ≤ n
        · have h2 : ((a :: rest).drop t).length ≤ n - ((a :: rest).take t).length := by
            rw [hdrop, hlen]; omega
          rw [if_pos h2, if_pos hall]
        · have h2 : ¬ ((a :: rest).drop t).length ≤ n - ((a :: rest).take t).length := by
            rw [hdrop, hlen]; omega
          rw [if_neg h2, if_neg hall]
          have htl : ((a :: rest).take t).length = t := by rw [hlen]; omega
          have hsplit : (a :: rest).take n =
              (a :: rest).take t ++ ((a :: rest).drop t).take (n - t) := by
            have := List.take_add (a :: rest) t (n - t)
            rw [show t + (n - t) = n by omega] at this
            exact this
          rw [htl, hsplit]
      · rw [if_neg hp]
        have hall : ¬ (a :: rest).length ≤ n := by
          rw [hlen] at hp; omega
        rw [if_neg hall]
        have : ((a :: rest).take t).take n = (a :: rest).take n := by
          rw [List.take_take]
          congr 1
          rw [hlen] at hp; omega
        rw [this]
        rfl

/-- What Get returns once the request has succeeded and the loop of ReadAll has
fuel for the whole body. -/
theorem Get_of_postAsGet_ok {σ : Type} (c : Core σ) (fuel : Nat) (certURL : String)
    (w : World σ) (resp : Response) (net1 : σ)
    (hpost : c.postAsGet certURL w.net = (Except.ok resp, net1))
    (hfuel : resp.Body.data.length + 1 ≤ fuel) :
    Get c fuel certURL w =
      if resp.Body.data.length ≤ maxBodySize then
        match finalErr resp.Body.final with
        | none =>
          some (⟨some resp.Body.data, getLink resp.Header "up", none⟩,
            ⟨net1, w.log ++
              [Event.postAsGet certURL, Event.readBody, Event.getLink "up"]⟩)
        | some e =>
          some (⟨none, "", some e⟩,
            ⟨net1, w.log ++ [Event.postAsGet certURL, Event.readBody]⟩)
      else
        some (⟨none, "", some errTooLarge⟩,
          ⟨net1, w.log ++ [Event.postAsGet certURL, Event.readBody]⟩) := by
  unfold Get
  rw [hpost]
  simp only [ReadAll, MaxBytesReader]
  rw [readFrom_eq fuel resp.Body maxBodySize [] hfuel]
  by_cases hlen : resp.Body.data.length ≤ maxBodySize
  · rw [if_pos hlen, if_pos hlen]
    cases hfin : finalErr resp.Body.final <;> simp
  · rw [if_neg hlen, if_neg hlen]

theorem Get_of_postAsGet_error {σ : Type} (c : Core σ) (fuel : Nat) (certURL : String)
    (w : World σ) (e : GoError) (net1 : σ)
    (hpost : c.postAsGet certURL w.net = (Except.error e, net1)) :
    Get c fuel certURL w =
      some (⟨none, "", some e⟩, ⟨net1, w.log ++ [Event.postAsGet certURL]⟩) := by
  unfold Get
  rw [hpost]

theorem finalErr_eq_none_iff (e : GoError) : finalErr e = none ↔ e = GoError.EOF := by
  cases e <;> simp [finalErr]

/-- C1: when postAsGet succeeds and the body stream ends without an I/O error,
Get (with fuel for the whole body) returns, and its error is nil if and only if
the body is at most maxBodySize bytes long; for a longer body the error is not
nil, the certificate bytes are nil and the up link is empty. -/
theorem Get_err_nil_iff_body_le_maxBodySize {σ : Type} (c : Core σ) (fuel : Nat)
    (certURL : String) (w : World σ) (resp : Response) (net1 : σ)
    (hpost : c.postAsGet certURL w.net = (Except.ok resp, net1))
    (hio : resp.Body.final = GoError.EOF)
    (hfuel : resp.Body.data.length + 1 ≤ fuel) :
    ∃ r w1, Get c fuel certURL w = some (r, w1) ∧
      (r.err = none ↔ resp.Body.data.length ≤ maxBodySize) ∧
      (maxBodySize < resp.Body.data.length →
        r.err ≠ none ∧ r.cert = none ∧ r.up = "") := by
  rw [Get_of_postAsGet_ok c fuel certURL w resp net1 hpost hfuel]
  have hfin : finalErr resp.Body.final = none := (finalErr_eq_none_iff _).2 hio
  by_cases hlen : resp.Body.data.length ≤ maxBodySize
  · rw [if_pos hlen, hfin]
    exact ⟨_, _, rfl, ⟨fun _ => hlen, fun _ => rfl⟩, fun h => absurd hlen (by omega)⟩
  · rw [if_neg hlen]
    refine ⟨_, _, rfl, ⟨fun h => ?_, fun h => absurd h hlen⟩, fun _ => ⟨?_, rfl, rfl⟩⟩
    · simp at h
    · simp

theorem Get_err_nil_iff_body_le_maxBodySize_witness :
    demoCore.postAsGet "https://ca.test/cert/leaf" demoWorld.net =
        (Except.ok (wholeResponse [⟨"https://ca.test/issuer/a", "up"⟩] [1, 2, 3]), 1) ∧
      ∃ r w1, Get demoCore 4 "https://ca.test/cert/leaf" demoWorld = some (r, w1) ∧
        (r.err = none ↔
          (wholeResponse [⟨"https://ca.test/issuer/a", "up"⟩] [1, 2, 3]).Body.data.length
            ≤ maxBodySize) ∧
        (maxBodySize <
            (wholeResponse [⟨"https://ca.test/issuer/a", "up"⟩] [1, 2, 3]).Body.data.length →
          r.err ≠ none ∧ r.cert = none ∧ r.up = "") :=
  ⟨rfl, Get_err_nil_iff_body_le_maxBodySize demoCore 4 "https://ca.test/cert/leaf"
    demoWorld _ 1 rfl rfl (by decide)⟩

/-- C2, as stated, fails: postAsGet succeeds at this URL and the body stream
delivers three bytes, far below maxBodySize, but the stream then breaks, and Get
returns nil bytes, an empty up link and the error of the stream. -/
theorem Get_small_body_stream_error :
    demoCore.postAsGet "https://ca.test/cert/broken" demoWorld.net =
        (Except.ok brokenResponse, 1) ∧
      brokenResponse.Body.data.length ≤ maxBodySize ∧
      brokenResponse.Body.data.length + 1 ≤ 4 ∧
      Get demoCore 4 "https://ca.test/cert/broken" demoWorld =
        some (⟨none, "", some (GoError.new "unexpected EOF")⟩,
          ⟨1, [Event.postAsGet "https://ca.test/cert/broken", Event.readBody]⟩) :=
  ⟨rfl, by decide, by decide, rfl⟩

/-- C2, amended: when postAsGet succeeds, the body stream ends without an I/O
error and the body is at most maxBodySize bytes long, Get (with fuel for the whole
body) returns the whole body, a nil error, and as up link the target of the first
Link entry with relation "up", the empty string when no entry has that relation. -/
theorem Get_returns_body_and_up {σ : Type} (c : Core σ) (fuel : Nat)
    (certURL : String) (w : World σ) (resp : Response) (net1 : σ)
    (hpost : c.postAsGet certURL w.net = (Except.ok resp, net1))
    (hio : resp.Body.final = GoError.EOF)
    (hlen : resp.Body.data.length ≤ maxBodySize)
    (hfuel : resp.Body.data.length + 1 ≤ fuel) :
    ∃ up w1, Get c fuel certURL w = some (⟨some resp.Body.data, up, none⟩, w1) ∧
      ((∀ e ∈ resp.Header.Link, e.rel ≠ "up") → up = "") ∧
      (∀ pre e post, resp.Header.Link = pre ++ e :: post → e.rel = "up" →
        (∀ x ∈ pre, x.rel ≠ "up") → up = e.target) := by
  rw [Get_of_postAsGet_ok c fuel certURL w resp net1 hpost hfuel, if_pos hlen,
    (finalErr_eq_none_iff _).2 hio]
  refine ⟨_, _, rfl, ?_, ?_⟩
  · intro hno
    have : resp.Header.Link.find? (fun e => e.rel == "up") = none := by
      rw [List.find?_eq_none]
      intro x hx
      simpa using hno x hx
    simp [getLink, this]
  · intro pre e post hsplit hrel hpre
    have : resp.Header.Link.find? (fun e => e.rel == "up") = some e := by
      rw [hsplit, List.find?_append]
      have hnone : pre.find? (fun e => e.rel == "up") = none := by
        rw [List.find?_eq_none]
        intro x hx
        simpa using hpre x hx
      simp [hnone, hrel]
    simp [getLink, this]

theorem Get_returns_body_and_up_witness :
    ∃ up w1, Get demoCore 4 "https://ca.test/cert/leaf" demoWorld =
        some (⟨some [1, 2, 3], up, none⟩, w1) ∧
      ((∀ e ∈ [(⟨"https://ca.test/issuer/a", "up"⟩ : LinkEntry)], e.rel ≠ "up") → up = "") ∧
      (∀ pre e post, [(⟨"https://ca.test/issuer/a", "up"⟩ : LinkEntry)] = pre ++ e :: post →
        e.rel = "up" → (∀ x ∈ pre, x.rel ≠ "up") → up = e.target) :=
  Get_returns_body_and_up demoCore 4 "https://ca.test/cert/leaf" demoWorld
    (wholeResponse [⟨"https://ca.test/issuer/a", "up"⟩] [1, 2, 3]) 1 rfl rfl
    (by decide) (by decide)

/-- A Get that fails ends the fetch with its error. -/
theorem fetchChain_succ_of_Get_error {σ : Type} (c : Core σ) (fuel depth : Nat)
    (certURL : String) (w w1 : World σ) (e : GoError)
    (h : Get c fuel certURL w = some (⟨none, "", some e⟩, w1)) :
    fetchChain c fuel (depth + 1) certURL w = some (Except.error e, w1) := by
  simp only [fetchChain, h]

theorem hugeResponse_length : hugeResponse.Body.data.length = maxBodySize + 1 := by
  simp [hugeResponse, wholeResponse]

/-- Get on the certificate whose body is one byte too long. -/
theorem Get_hugeResponse :
    Get demoCore (maxBodySize + 2) "https://ca.test/cert/huge" demoWorld =
      some (⟨none, "", some errTooLarge⟩,
        ⟨1, demoWorld.log ++
          [Event.postAsGet "https://ca.test/cert/huge", Event.readBody]⟩) := by
  have hget := Get_of_postAsGet_ok demoCore (maxBodySize + 2)
    "https://ca.test/cert/huge" demoWorld hugeResponse 1 rfl
    (by have h := hugeResponse_length; omega)
  rw [if_neg (by have h := hugeResponse_length; omega)] at hget
  exact hget

/-- C3, as stated, fails.  Both leaf responses below have an up link to issuer A,
whose response has an up link to issuer B, whose response has no up link.  The
body stream of the first leaf breaks after three bytes, and the fetch returns the
error of the stream; the body of the second leaf is one byte longer than
maxBodySize, and the fetch returns "http: request body too large".  In neither
case is a bundle returned, and no issuer is asked for. -/
theorem fetchChain_leaf_body_rejected :
    (demoCore.postAsGet "https://ca.test/cert/broken" demoWorld.net =
        (Except.ok brokenResponse, 1) ∧
      brokenResponse.Body.data.length ≤ maxBodySize ∧
      getLink brokenResponse.Header "up" = "https://ca.test/issuer/a" ∧
      demoCore.postAsGet "https://ca.test/issuer/a" 1 =
        (Except.ok (wholeResponse [⟨"https://ca.test/issuer/b", "up"⟩] [4, 5]), 2) ∧
      demoCore.postAsGet "https://ca.test/issuer/b" 2 =
        (Except.ok (wholeResponse [⟨"https://ca.test/", "index"⟩] [6]), 3) ∧
      getLink (wholeResponse [⟨"https://ca.test/", "index"⟩] [6]).Header "up" = "" ∧
      fetchChain demoCore 4 3 "https://ca.test/cert/broken" demoWorld =
        some (Except.error (GoError.new "unexpected EOF"),
          ⟨1, [Event.postAsGet "https://ca.test/cert/broken", Event.readBody]⟩)) ∧
    (demoCore.postAsGet "https://ca.test/cert/huge" demoWorld.net =
        (Except.ok hugeResponse, 1) ∧
      hugeResponse.Body.final = GoError.EOF ∧
      hugeResponse.Body.data.length = maxBodySize + 1 ∧
      getLink hugeResponse.Header "up" = "https://ca.test/issuer/a" ∧
      fetchChain demoCore (maxBodySize + 2) 3 "https://ca.test/cert/huge" demoWorld =
        some (Except.error (GoError.new "http: request body too large"),
          ⟨1, [Event.postAsGet "https://ca.test/cert/huge", Event.readBody]⟩)) :=
  ⟨⟨rfl, by decide, rfl, rfl, rfl, rfl, rfl⟩, rfl, rfl, hugeResponse_length, rfl,
    fetchChain_succ_of_Get_error demoCore (maxBodySize + 2) 2 "https://ca.test/cert/huge"
      demoWorld _ _ Get_hugeResponse⟩

/-- C3, amended: when the response at the leaf URL has an up link to issuer A, the
response at A an up link to issuer B, and the response at B no up link, and each
of the three body streams ends without an I/O error with a body of at most
maxBodySize bytes, the fetch started at the leaf URL returns, with depth for three
certificates and fuel for each body, exactly the bundle [leaf, A, B], after three
requests. -/
theorem fetchChain_leaf_A_B {σ : Type} (c : Core σ) (fuel depth : Nat)
    (leafURL urlA urlB : String) (w : World σ) (rLeaf rA rB : Response) (n1 n2 n3 : σ)
    (hLeaf : c.postAsGet leafURL w.net = (Except.ok rLeaf, n1))
    (hA : c.postAsGet urlA n1 = (Except.ok rA, n2))
    (hB : c.postAsGet urlB n2 = (Except.ok rB, n3))
    (hioLeaf : rLeaf.Body.final = GoError.EOF) (hioA : rA.Body.final = GoError.EOF)
    (hioB : rB.Body.final = GoError.EOF)
    (hlenLeaf : rLeaf.Body.data.length ≤ maxBodySize)
    (hlenA : rA.Body.data.length ≤ maxBodySize)
    (hlenB : rB.Body.data.length ≤ maxBodySize)
    (hupLeaf : getLink rLeaf.Header "up" = urlA) (hupA : getLink rA.Header "up" = urlB)
    (hupB : ∀ e ∈ rB.Header.Link, e.rel ≠ "up")
    (hneA : urlA ≠ "") (hneB : urlB ≠ "")
    (hfLeaf : rLeaf.Body.data.length + 1 ≤ fuel) (hfA : rA.Body.data.length + 1 ≤ fuel)
    (hfB : rB.Body.data.length + 1 ≤ fuel) (hdepth : 3 ≤ depth) :
    fetchChain c fuel depth leafURL w =
      some (Except.ok [rLeaf.Body.data, rA.Body.data, rB.Body.data],
        ⟨n3, w.log ++
          [Event.postAsGet leafURL, Event.readBody, Event.getLink "up",
           Event.postAsGet urlA, Event.readBody, Event.getLink "up",
           Event.postAsGet urlB, Event.readBody, Event.getLink "up"]⟩) := by
  obtain ⟨d, rfl⟩ : ∃ d, depth = d + 3 := ⟨depth - 3, by omega⟩
  have hupB2 : getLink rB.Header "up" = "" := by
    have : rB.Header.Link.find? (fun e => e.rel == "up") = none := by
      rw [List.find?_eq_none]
      intro x hx
      simpa using hupB x hx
    simp [getLink, this]
  have g1 := Get_of_postAsGet_ok c fuel leafURL w rLeaf n1 hLeaf hfLeaf
  rw [if_pos hlenLeaf, (finalErr_eq_none_iff _).2 hioLeaf] at g1
  have g2 := Get_of_postAsGet_ok c fuel urlA
    ⟨n1, w.log ++ [Event.postAsGet leafURL, Event.readBody, Event.getLink "up"]⟩
    rA n2 hA hfA
  rw [if_pos hlenA, (finalErr_eq_none_iff _).2 hioA] at g2
  have g3 := Get_of_postAsGet_ok c fuel urlB
    ⟨n2, (w.log ++ [Event.postAsGet leafURL, Event.readBody, Event.getLink "up"]) ++
      [Event.postAsGet urlA, Event.readBody, Event.getLink "up"]⟩
    rB n3 hB hfB
  rw [if_pos hlenB, (finalErr_eq_none_iff _).2 hioB] at g3
  simp only at g1 g2 g3
  rw [hupLeaf] at g1
  rw [hupA] at g2
  rw [hupB2] at g3
  simp only [fetchChain, g1, hneA, if_false, Option.getD_some]
  simp only [g2, hneB, if_false, Option.getD_some]
  simp only [g3, if_true, Option.getD_some]
  simp only [List.append_assoc, List.cons_append, List.nil_append]

theorem fetchChain_leaf_A_B_witness :
    fetchChain demoCore 4 3 "https://ca.test/cert/leaf" demoWorld =
      some (Except.ok [[1, 2, 3], [4, 5], [6]],
        ⟨3, demoWorld.log ++
          [Event.postAsGet "https://ca.test/cert/leaf", Event.readBody, Event.getLink "up",
           Event.postAsGet "https://ca.test/issuer/a", Event.readBody, Event.getLink "up",
           Event.postAsGet "https://ca.test/issuer/b", Event.readBody,
           Event.getLink "up"]⟩) :=
  fetchChain_leaf_A_B demoCore 4 3 "https://ca.test/cert/leaf" "https://ca.test/issuer/a"
    "https://ca.test/issuer/b" demoWorld
    (wholeResponse [⟨"https://ca.test/issuer/a", "up"⟩] [1, 2, 3])
    (wholeResponse [⟨"https://ca.test/issuer/b", "up"⟩] [4, 5])
    (wholeResponse [⟨"https://ca.test/", "index"⟩] [6]) 1 2 3
    rfl rfl rfl rfl rfl rfl (by decide) (by decide) (by decide) rfl rfl (by decide)
    (by decide) (by decide) (by decide) (by decide) (by decide) (by decide)

/-- C4: Revoke sends exactly one post, to the RevokeCertURL of the cached
directory and with the message as payload, and returns the error of that post:
nil if and only if the post succeeded, and the error of the post otherwise. -/
theorem Revoke_one_post_to_RevokeCertURL {σ : Type} (c : Core σ)
    (req : RevokeCertMessage) (w : World σ) :
    (Revoke c req w).2.log = w.log ++ [Event.post c.directory.RevokeCertURL req] ∧
      (Revoke c req w).2.net = (c.post c.directory.RevokeCertURL req w.net).2 ∧
      (∀ e, (c.post c.directory.RevokeCertURL req w.net).1 = Except.error e →
        (Revoke c req w).1 = some e) ∧
      ((Revoke c req w).1 = none ↔
        ∃ resp, (c.post c.directory.RevokeCertURL req w.net).1 = Except.ok resp) := by
  unfold Revoke Core.GetDirectory
  rcases hp : c.post c.directory.RevokeCertURL req w.net with ⟨res, net1⟩
  cases res with
  | error e => simp
  | ok resp => simp

theorem Revoke_one_post_to_RevokeCertURL_witness :
    (Revoke demoCore ⟨"MIIB"⟩ demoWorld).1 =
        some (GoError.new "urn:ietf:params:acme:error:alreadyRevoked") ∧
      (Revoke demoCore ⟨"MIIB"⟩ demoWorld).2.log =
        demoWorld.log ++ [Event.post demoCore.directory.RevokeCertURL ⟨"MIIB"⟩] :=
  ⟨(Revoke_one_post_to_RevokeCertURL demoCore ⟨"MIIB"⟩ demoWorld).2.2.1 _ rfl,
    (Revoke_one_post_to_RevokeCertURL demoCore ⟨"MIIB"⟩ demoWorld).1⟩

/-- C5: Get sends exactly one postAsGet request, to the URL it was given, and
advances the transport by that one request only; whatever else it does is reading
the body and the up link.  When the request fails with error e, Get returns nil
bytes, an empty up link and e itself, and neither body nor Link header is read. -/
theorem Get_one_postAsGet_no_retry {σ : Type} (c : Core σ) (fuel : Nat)
    (certURL : String) (w : World σ)
    (hfuel : ∀ resp, (c.postAsGet certURL w.net).1 = Except.ok resp →
      resp.Body.data.length + 1 ≤ fuel) :
    ∃ r tail, Get c fuel certURL w =
        some (r, ⟨(c.postAsGet certURL w.net).2,
          w.log ++ Event.postAsGet certURL :: tail⟩) ∧
      (∀ ev ∈ tail, ev = Event.readBody ∨ ev = Event.getLink "up") ∧
      (∀ e, (c.postAsGet certURL w.net).1 = Except.error e →
        r = ⟨none, "", some e⟩ ∧ tail = []) := by
  rcases hp : c.postAsGet certURL w.net with ⟨res, net1⟩
  cases res with
  | error e =>
    rw [Get_of_postAsGet_error c fuel certURL w e net1 hp]
    refine ⟨_, [], rfl, by simp, ?_⟩
    intro e1 he1
    simp only [Except.error.injEq] at he1
    subst he1
    exact ⟨rfl, rfl⟩
  | ok resp =>
    have hf : resp.Body.data.length + 1 ≤ fuel := hfuel resp (by rw [hp])
    rw [Get_of_postAsGet_ok c fuel certURL w resp net1 hp hf]
    by_cases hlen : resp.Body.data.length ≤ maxBodySize
    · rw [if_pos hlen]
      cases finalErr resp.Body.final with
      | none =>
        exact ⟨_, [Event.readBody, Event.getLink "up"], rfl, by simp, by simp⟩
      | some e1 =>
        exact ⟨_, [Event.readBody], rfl, by simp, by simp⟩
    · rw [if_neg hlen]
      exact ⟨_, [Event.readBody], rfl, by simp, by simp⟩

theorem Get_one_postAsGet_no_retry_witness :
    ∃ r tail, Get demoCore 4 "https://ca.test/cert/leaf" demoWorld =
        some (r, ⟨(demoCore.postAsGet "https://ca.test/cert/leaf" demoWorld.net).2,
          demoWorld.log ++ Event.postAsGet "https://ca.test/cert/leaf" :: tail⟩) ∧
      (∀ ev ∈ tail, ev = Event.readBody ∨ ev = Event.getLink "up") ∧
      (∀ e, (demoCore.postAsGet "https://ca.test/cert/leaf" demoWorld.net).1 =
          Except.error e → r = ⟨none, "", some e⟩ ∧ tail = []) :=
  Get_one_postAsGet_no_retry demoCore 4 "https://ca.test/cert/leaf" demoWorld
    (fun resp h => by
      have h2 : resp = wholeResponse [⟨"https://ca.test/issuer/a", "up"⟩] [1, 2, 3] :=
        (Except.ok.inj h).symm
      subst h2
      decide)

end Skin

namespace Cloudflare

/-- The four ways through ZoneIDByName: a hit, a failed lookup, a lookup that
finds no usable zone, and a lookup whose first zone has an ID. -/
theorem ZoneIDByName_cases {ρ : Type} (svc : Service ρ) (m : metaClient)
    (fdqn : String) (env : Env ρ) :
    (m.zones.get fdqn ≠ "" ∧
      m.ZoneIDByName svc fdqn env = ((m.zones.get fdqn, none), m, env)) ∨
    (m.zones.get fdqn = "" ∧ ∃ zs e r1,
      svc.ListZones m.clientRead (UnFqdn fdqn) env.remote = ((zs, some e), r1) ∧
      m.ZoneIDByName svc fdqn env =
        (("", some e), m,
          ⟨r1, env.log ++ [Call.ListZones m.clientRead (UnFqdn fdqn)]⟩)) ∨
    (m.zones.get fdqn = "" ∧ ∃ zs r1,
      svc.ListZones m.clientRead (UnFqdn fdqn) env.remote = ((zs, none), r1) ∧
      (zs = [] ∨ ∃ z rest, zs = z :: rest ∧ z.ID = "") ∧
      m.ZoneIDByName svc fdqn env =
        (("", some (errZoneNotFound fdqn)), m,
          ⟨r1, env.log ++ [Call.ListZones m.clientRead (UnFqdn fdqn)]⟩)) ∨
    (m.zones.get fdqn = "" ∧ ∃ z rest r1,
      svc.ListZones m.clientRead (UnFqdn fdqn) env.remote = ((z :: rest, none), r1) ∧
      z.ID ≠ "" ∧
      m.ZoneIDByName svc fdqn env =
        ((z.ID, none), ⟨m.clientEdit, m.clientRead, m.zones.set fdqn z.ID⟩,
          ⟨r1, env.log ++ [Call.ListZones m.clientRead (UnFqdn fdqn)]⟩)) := by
  by_cases hhit : m.zones.get fdqn = ""
  · right
    rcases hl : svc.ListZones m.clientRead (UnFqdn fdqn) env.remote with ⟨⟨zs, err⟩, r1⟩
    cases err with
    | some e =>
      left
      refine ⟨hhit, zs, e, r1, rfl, ?_⟩
      simp [metaClient.ZoneIDByName, hhit, hl]
    | none =>
      right
      cases zs with
      | nil =>
        left
        refine ⟨hhit, [], r1, rfl, Or.inl rfl, ?_⟩
        simp [metaClient.ZoneIDByName, hhit, hl]
      | cons z rest =>
        by_cases hz : z.ID = ""
        · left
          refine ⟨hhit, z :: rest, r1, rfl, Or.inr ⟨z, rest, rfl, hz⟩, ?_⟩
          simp [metaClient.ZoneIDByName, hhit, hl, hz]
        · right
          refine ⟨hhit, z, rest, r1, rfl, hz, ?_⟩
          simp [metaClient.ZoneIDByName, hhit, hl, hz]
  · left
    refine ⟨hhit, ?_⟩
    simp [metaClient.ZoneIDByName, hhit]

theorem GoMap_get_set_self (m : GoMap) (k v : String) : (m.set k v).get k = v := by
  simp [GoMap.get, GoMap.set]

theorem GoMap_get_set_of_ne (m : GoMap) (k v x : String) (h : x ≠ k) :
    (m.set k v).get x = m.get x := by
  simp [GoMap.get, GoMap.set, h]

/-- A name with a non-empty ID in the cache keeps it through ZoneIDByName, whatever
name is looked up. -/
theorem ZoneIDByName_keeps_cached {ρ : Type} (svc : Service ρ) (m : metaClient)
    (fdqn : String) (env : Env ρ) (k : String) (hk : m.zones.get k ≠ "") :
    (m.ZoneIDByName svc fdqn env).2.1.zones.get k = m.zones.get k := by
  rcases ZoneIDByName_cases svc m fdqn env with ⟨_, h⟩ | ⟨_, _, _, _, _, h⟩ |
    ⟨_, _, _, _, _, h⟩ | ⟨hmiss, z, rest, r1, _, _, h⟩
  · rw [h]
  · rw [h]
  · rw [h]
  · rw [h]
    have hne : k ≠ fdqn := by
      intro heq
      rw [heq] at hk
      exact hk hmiss
    exact GoMap_get_set_of_ne m.zones fdqn z.ID k hne

theorem step_keeps_cached {ρ : Type} (svc : Service ρ) (st : metaClient × Env ρ)
    (op : Op) (k : String) (hk : st.1.zones.get k ≠ "") :
    (step svc st op).1.zones.get k = st.1.zones.get k := by
  cases op with
  | CreateDNSRecord zoneID rr => rfl
  | DNSRecords zoneID rr => rfl
  | DeleteDNSRecord zoneID recordID => rfl
  | ZoneIDByName fdqn => exact ZoneIDByName_keeps_cached svc st.1 fdqn st.2 k hk

theorem run_keeps_cached {ρ : Type} (svc : Service ρ) (ops : List Op) :
    ∀ (st : metaClient × Env ρ) (k : String), st.1.zones.get k ≠ "" →
      (run svc ops st).1.zones.get k = st.1.zones.get k := by
  induction ops with
  | nil => intro st k _; rfl
  | cons op rest ih =>
    intro st k hk
    have h1 := step_keeps_cached svc st op k hk
    have h2 : (step svc st op).1.zones.get k ≠ "" := by rw [h1]; exact hk
    have h3 := ih (step svc st op) k h2
    simp only [run, List.foldl_cons] at h3 ⊢
    rw [h3, h1]

/-- A successful ZoneIDByName returns a non-empty ID, and the cache then holds it. -/
theorem ZoneIDByName_ok_cached {ρ : Type} (svc : Service ρ) (m : metaClient)
    (fdqn : String) (env : Env ρ) (id : String)
    (hres : (m.ZoneIDByName svc fdqn env).1 = (id, none)) :
    id ≠ "" ∧ (m.ZoneIDByName svc fdqn env).2.1.zones.get fdqn = id := by
  rcases ZoneIDByName_cases svc m fdqn env with ⟨hhit, h⟩ | ⟨_, _, _, _, _, h⟩ |
    ⟨_, _, _, _, _, h⟩ | ⟨hmiss, z, rest, r1, _, hz, h⟩
  · rw [h] at hres ⊢
    simp only [Prod.mk.injEq, and_true] at hres
    subst hres
    exact ⟨hhit, rfl⟩
  · rw [h] at hres
    simp at hres
  · rw [h] at hres
    simp at hres
  · rw [h] at hres ⊢
    simp only [Prod.mk.injEq, and_true] at hres
    subst hres
    exact ⟨hz, GoMap_get_set_self m.zones fdqn z.ID⟩

theorem UnFqdn_append_dot (base : String) : UnFqdn (base ++ ".") = base := by
  have h : (base ++ ".").data.reverse = '.' :: base.data.reverse := by
    simp [String.data_append]
  simp [UnFqdn, h]

/-- What one operation does to the clients and to the log: the clients stay, and
every call added is ListZones on the read client or a record call on the edit
client. -/
theorem step_calls {ρ : Type} (svc : Service ρ) (st : metaClient × Env ρ) (op : Op) :
    (step svc st op).1.clientEdit = st.1.clientEdit ∧
    (step svc st op).1.clientRead = st.1.clientRead ∧
    ∃ calls, (step svc st op).2.log = st.2.log ++ calls ∧
      ∀ c ∈ calls, c.client = if c.isListZones then st.1.clientRead else st.1.clientEdit := by
  cases op with
  | CreateDNSRecord zoneID rr =>
    exact ⟨rfl, rfl, [Call.CreateDNSRecord st.1.clientEdit zoneID rr], rfl,
      by simp [Call.client, Call.isListZones]⟩
  | DNSRecords zoneID rr =>
    exact ⟨rfl, rfl, [Call.DNSRecords st.1.clientEdit zoneID rr], rfl,
      by simp [Call.client, Call.isListZones]⟩
  | DeleteDNSRecord zoneID recordID =>
    exact ⟨rfl, rfl, [Call.DeleteDNSRecord st.1.clientEdit zoneID recordID], rfl,
      by simp [Call.client, Call.isListZones]⟩
  | ZoneIDByName fdqn =>
    simp only [step]
    rcases ZoneIDByName_cases svc st.1 fdqn st.2 with ⟨_, h⟩ | ⟨_, _, _, _, _, h⟩ |
      ⟨_, _, _, _, _, h⟩ | ⟨_, _, _, _, _, _, h⟩
    · rw [h]
      exact ⟨rfl, rfl, [], by simp, by simp⟩
    · rw [h]
      exact ⟨rfl, rfl, [Call.ListZones st.1.clientRead (UnFqdn fdqn)], rfl,
        by simp [Call.client, Call.isListZones]⟩
    · rw [h]
      exact ⟨rfl, rfl, [Call.ListZones st.1.clientRead (UnFqdn fdqn)], rfl,
        by simp [Call.client, Call.isListZones]⟩
    · rw [h]
      exact ⟨rfl, rfl, [Call.ListZones st.1.clientRead (UnFqdn fdqn)], rfl,
        by simp [Call.client, Call.isListZones]⟩

theorem run_calls {ρ : Type} (svc : Service ρ) (ops : List Op) :
    ∀ st : metaClient × Env ρ,
      (run svc ops st).1.clientEdit = st.1.clientEdit ∧
      (run svc ops st).1.clientRead = st.1.clientRead ∧
      ∃ calls, (run svc ops st).2.log = st.2.log ++ calls ∧
        ∀ c ∈ calls,
          c.client = if c.isListZones then st.1.clientRead else st.1.clientEdit := by
  induction ops with
  | nil => intro st; exact ⟨rfl, rfl, [], by simp [run], by simp⟩
  | cons op rest ih =>
    intro st
    obtain ⟨hE, hR, calls1, hlog1, hc1⟩ := step_calls svc st op
    obtain ⟨hE2, hR2, calls2, hlog2, hc2⟩ := ih (step svc st op)
    simp only [run, List.foldl_cons] at hE2 hR2 hlog2 ⊢
    refine ⟨by rw [hE2, hE], by rw [hR2, hR], calls1 ++ calls2, ?_, ?_⟩
    · rw [hlog2, hlog1, List.append_assoc]
    · intro c hc
      rcases List.mem_append.1 hc with h | h
      · exact hc1 c h
      · rw [hc2 c h, hE, hR]

/-- The metaClient of a successful newClient: the cache is empty; either one
client serves both roles, or the clients are two objects with the two tokens. -/
theorem newClient_ok {lib : Library} {config : Config} {heap heap1 : Nat}
    {m : metaClient} (h : newClient lib config heap = (Except.ok m, heap1)) :
    m.zones = GoMap.make ∧
    ((config.AuthToken = "" ∧ m.clientRead = m.clientEdit ∧
        m.clientEdit = ⟨heap, Credentials.keyEmail config.AuthKey config.AuthEmail,
          config.HTTPClient⟩) ∨
      (config.AuthToken ≠ "" ∧ (config.ZoneToken = "" ∨ config.ZoneToken = config.AuthToken) ∧
        m.clientRead = m.clientEdit ∧
        m.clientEdit = ⟨heap, Credentials.token config.AuthToken, config.HTTPClient⟩) ∨
      (config.AuthToken ≠ "" ∧ config.ZoneToken ≠ "" ∧
        config.ZoneToken ≠ config.AuthToken ∧
        m.clientEdit = ⟨heap, Credentials.token config.AuthToken, config.HTTPClient⟩ ∧
        m.clientRead = ⟨heap + 1, Credentials.token config.ZoneToken,
          config.HTTPClient⟩)) := by
  unfold newClient at h
  by_cases hA : config.AuthToken = ""
  · rw [if_pos hA] at h
    unfold Library.New at h
    cases hN : lib.NewErr config.AuthKey config.AuthEmail config.HTTPClient with
    | some e => rw [hN] at h; simp at h
    | none =>
      rw [hN] at h
      simp only [Prod.mk.injEq, Except.ok.injEq] at h
      obtain ⟨hm, _⟩ := h
      subst hm
      exact ⟨rfl, Or.inl ⟨hA, rfl, rfl⟩⟩
  · rw [if_neg hA] at h
    unfold Library.NewWithAPIToken at h
    cases hN : lib.NewWithAPITokenErr config.AuthToken config.HTTPClient with
    | some e => rw [hN] at h; simp at h
    | none =>
      rw [hN] at h
      simp only at h
      by_cases hZ : config.ZoneToken = "" ∨ config.ZoneToken = config.AuthToken
      · rw [if_pos hZ] at h
        simp only [Prod.mk.injEq, Except.ok.injEq] at h
        obtain ⟨hm, _⟩ := h
        subst hm
        exact ⟨rfl, Or.inr (Or.inl ⟨hA, hZ, rfl, rfl⟩)⟩
      · rw [if_neg hZ] at h
        cases hN2 : lib.NewWithAPITokenErr config.ZoneToken config.HTTPClient with
        | some e => rw [hN2] at h; simp at h
        | none =>
          rw [hN2] at h
          simp only [Prod.mk.injEq, Except.ok.injEq] at h
          obtain ⟨hm, _⟩ := h
          subst hm
          have hZ1 : config.ZoneToken ≠ "" := fun h0 => hZ (Or.inl h0)
          have hZ2 : config.ZoneToken ≠ config.AuthToken := fun h0 => hZ (Or.inr h0)
          exact ⟨rfl, Or.inr (Or.inr ⟨hA, hZ1, hZ2, rfl, rfl⟩)⟩

/-- C6: when the cache holds a non-empty ID for the name, ZoneIDByName returns it
with a nil error and leaves the metaClient, the remote state and the log as they
were (no ListZones call); when it holds none, ZoneIDByName makes exactly one call,
ListZones on the read client with the name without its trailing dot, and advances
the remote state by that call only. -/
theorem ZoneIDByName_read_through {ρ : Type} (svc : Service ρ) (m : metaClient)
    (fdqn : String) (env : Env ρ) :
    (m.zones.get fdqn ≠ "" →
      m.ZoneIDByName svc fdqn env = ((m.zones.get fdqn, none), m, env)) ∧
    (m.zones.get fdqn = "" →
      ∃ res m1, m.ZoneIDByName svc fdqn env =
        (res, m1, ⟨(svc.ListZones m.clientRead (UnFqdn fdqn) env.remote).2,
          env.log ++ [Call.ListZones m.clientRead (UnFqdn fdqn)]⟩)) ∧
    (∀ base, fdqn = base ++ "." → UnFqdn fdqn = base) := by
  refine ⟨?_, ?_, ?_⟩
  · intro hhit
    rcases ZoneIDByName_cases svc m fdqn env with ⟨_, h⟩ | ⟨hm, _⟩ | ⟨hm, _⟩ | ⟨hm, _⟩
    · exact h
    · exact absurd hm hhit
    · exact absurd hm hhit
    · exact absurd hm hhit
  · intro hmiss
    rcases ZoneIDByName_cases svc m fdqn env with ⟨hh, _⟩ | ⟨_, _, _, _, hl, h⟩ |
      ⟨_, _, _, hl, _, h⟩ | ⟨_, _, _, _, hl, _, h⟩
    · exact absurd hmiss hh
    · exact ⟨_, _, by rw [h, hl]⟩
    · exact ⟨_, _, by rw [h, hl]⟩
    · exact ⟨_, _, by rw [h, hl]⟩
  · intro base hb
    rw [hb]
    exact UnFqdn_append_dot base

theorem ZoneIDByName_read_through_witness :
    demoClient.zones.get "example.com." = "" ∧
    ∃ res m1, demoClient.ZoneIDByName demoService "example.com." demoEnv =
      (res, m1,
        ⟨(demoService.ListZones demoClient.clientRead (UnFqdn "example.com.")
            demoEnv.remote).2,
          demoEnv.log ++ [Call.ListZones demoClient.clientRead (UnFqdn "example.com.")]⟩) :=
  ⟨by decide,
    (ZoneIDByName_read_through demoService demoClient "example.com." demoEnv).2.1
      (by decide)⟩

/-- C7: start from the metaClient of a successful newClient, run any operations,
and let ZoneIDByName then return an ID for a name with a nil error.  After any
further operations, ZoneIDByName returns the same ID for that name with a nil
error, against any remote service in any state, and leaves metaClient, remote
state and log untouched (nothing in this depends on the cache having started
empty).  And a miss that succeeds, on any metaClient, took the ID of the first zone
listed and changed the cache at that name only. -/
theorem zone_cache_never_invalidated {ρ : Type} (lib : Library) (config : Config)
    (heap heap1 : Nat) (m : metaClient)
    (_hnew : newClient lib config heap = (Except.ok m, heap1))
    (svc : Service ρ) (env : Env ρ) (ops1 ops2 : List Op) (name id : String)
    (hfirst : ((run svc ops1 (m, env)).1.ZoneIDByName svc name
      (run svc ops1 (m, env)).2).1 = (id, none)) :
    (∀ (svc2 : Service ρ) (env2 : Env ρ),
      (run svc ops2 (step svc (run svc ops1 (m, env)) (Op.ZoneIDByName name))).1.ZoneIDByName
          svc2 name env2 =
        ((id, none),
          (run svc ops2 (step svc (run svc ops1 (m, env)) (Op.ZoneIDByName name))).1,
          env2)) ∧
    (∀ (m0 m1 : metaClient) (env0 env1 : Env ρ) (id0 : String),
      m0.zones.get name = "" →
      m0.ZoneIDByName svc name env0 = ((id0, none), m1, env1) →
      (∃ z rest, (svc.ListZones m0.clientRead (UnFqdn name) env0.remote).1 =
          (z :: rest, none) ∧ id0 = z.ID) ∧
        m1.zones name = some id0 ∧ ∀ k, k ≠ name → m1.zones k = m0.zones k) := by
  refine ⟨?_, ?_⟩
  · intro svc2 env2
    obtain ⟨hne, hcached⟩ :=
      ZoneIDByName_ok_cached svc (run svc ops1 (m, env)).1 name (run svc ops1 (m, env)).2
        id hfirst
    have hst : (step svc (run svc ops1 (m, env)) (Op.ZoneIDByName name)).1.zones.get name
        = id := hcached
    have hkeep := run_keeps_cached svc ops2
      (step svc (run svc ops1 (m, env)) (Op.ZoneIDByName name)) name (by rw [hst]; exact hne)
    rw [hst] at hkeep
    rcases ZoneIDByName_cases svc2
      (run svc ops2 (step svc (run svc ops1 (m, env)) (Op.ZoneIDByName name))).1 name env2
      with ⟨_, h⟩ | ⟨hm, _⟩ | ⟨hm, _⟩ | ⟨hm, _⟩
    · rw [h, hkeep]
    · rw [hkeep] at hm; exact absurd hm hne
    · rw [hkeep] at hm; exact absurd hm hne
    · rw [hkeep] at hm; exact absurd hm hne
  · intro m0 m1 env0 env1 id0 hmiss hres
    rcases ZoneIDByName_cases svc m0 name env0 with ⟨hh, _⟩ | ⟨_, _, _, _, _, h⟩ |
      ⟨_, _, _, _, _, h⟩ | ⟨_, z, rest, r1, hl, _, h⟩
    · exact absurd hmiss hh
    · rw [h] at hres; simp at hres
    · rw [h] at hres; simp at hres
    · rw [h] at hres
      simp only [Prod.mk.injEq, and_true] at hres
      obtain ⟨hid, hm1, _⟩ := hres
      subst hid
      subst hm1
      refine ⟨⟨z, rest, by rw [hl], rfl⟩, by simp [GoMap.set], ?_⟩
      intro k hk
      simp [GoMap.set, hk]

theorem zone_cache_never_invalidated_witness :
    (run demoService [Op.DeleteDNSRecord "z1" "r1", Op.ZoneIDByName "other.org."]
      (step demoService (run demoService [] (demoClient, demoEnv))
        (Op.ZoneIDByName "example.com."))).1.ZoneIDByName demoService "example.com."
        ⟨7, []⟩ =
      (("z1", none),
        (run demoService [Op.DeleteDNSRecord "z1" "r1", Op.ZoneIDByName "other.org."]
          (step demoService (run demoService [] (demoClient, demoEnv))
            (Op.ZoneIDByName "example.com."))).1,
        ⟨7, []⟩) :=
  (zone_cache_never_invalidated demoLibrary demoConfig 100 102 demoClient rfl demoService
    demoEnv [] [Op.DeleteDNSRecord "z1" "r1", Op.ZoneIDByName "other.org."]
    "example.com." "z1" (by decide)).1 demoService ⟨7, []⟩

/-- C8: on a cache miss, an error of ListZones is returned with an empty ID; an
empty list, or a list whose first zone has an empty ID, gives an empty ID and the
error "cloudflare dns provider: zone <name> not found"; whenever ZoneIDByName
returns an error the ID is empty and the metaClient is the one it was; and the
cache holds an empty ID afterwards only where it held one before. -/
theorem ZoneIDByName_miss_fails_atomically {ρ : Type} (svc : Service ρ) (m : metaClient)
    (fdqn : String) (env : Env ρ) (hmiss : m.zones.get fdqn = "") :
    (∀ zs e r1,
      svc.ListZones m.clientRead (UnFqdn fdqn) env.remote = ((zs, some e), r1) →
      m.ZoneIDByName svc fdqn env =
        (("", some e), m, ⟨r1, env.log ++ [Call.ListZones m.clientRead (UnFqdn fdqn)]⟩)) ∧
    (∀ zs r1,
      svc.ListZones m.clientRead (UnFqdn fdqn) env.remote = ((zs, none), r1) →
      (zs = [] ∨ ∃ z rest, zs = z :: rest ∧ z.ID = "") →
      m.ZoneIDByName svc fdqn env =
        (("", some (GoError.new ("cloudflare dns provider: zone " ++ fdqn ++ " not found"))),
          m, ⟨r1, env.log ++ [Call.ListZones m.clientRead (UnFqdn fdqn)]⟩)) ∧
    ((m.ZoneIDByName svc fdqn env).1.2 ≠ none →
      (m.ZoneIDByName svc fdqn env).1.1 = "" ∧ (m.ZoneIDByName svc fdqn env).2.1 = m) ∧
    (∀ k, (m.ZoneIDByName svc fdqn env).2.1.zones k = some "" → m.zones k = some "") := by
  rcases ZoneIDByName_cases svc m fdqn env with ⟨hh, _⟩ | ⟨_, zs0, e0, r0, hl, h⟩ |
    ⟨_, zs0, r0, hl, hbad, h⟩ | ⟨_, z0, rest0, r0, hl, hz, h⟩
  · exact absurd hmiss hh
  · refine ⟨?_, ?_, ?_, ?_⟩
    · intro zs e r1 hl1
      rw [hl] at hl1
      simp only [Prod.mk.injEq, Option.some.injEq] at hl1
      obtain ⟨⟨_, he⟩, hr⟩ := hl1
      rw [h, he, hr]
    · intro zs r1 hl1
      rw [hl] at hl1
      simp at hl1
    · intro _; rw [h]; exact ⟨rfl, rfl⟩
    · intro k hk; rw [h] at hk; exact hk
  · refine ⟨?_, ?_, ?_, ?_⟩
    · intro zs e r1 hl1
      rw [hl] at hl1
      simp at hl1
    · intro zs r1 hl1 _
      rw [hl] at hl1
      simp only [Prod.mk.injEq, and_true] at hl1
      obtain ⟨_, hr⟩ := hl1
      rw [h, hr]
      rfl
    · intro _; rw [h]; exact ⟨rfl, rfl⟩
    · intro k hk; rw [h] at hk; exact hk
  · refine ⟨?_, ?_, ?_, ?_⟩
    · intro zs e r1 hl1
      rw [hl] at hl1
      simp at hl1
    · intro zs r1 hl1 hbad
      rw [hl] at hl1
      simp only [Prod.mk.injEq, and_true] at hl1
      obtain ⟨hzs, _⟩ := hl1
      rcases hbad with hnil | ⟨z, rest, hcons, hzid⟩
      · rw [hnil] at hzs; simp at hzs
      · rw [hcons] at hzs
        simp only [List.cons.injEq] at hzs
        rw [hzs.1] at hz
        exact absurd hzid hz
    · intro herr; rw [h] at herr; simp at herr
    · intro k hk
      rw [h] at hk
      simp only [GoMap.set] at hk
      by_cases hkf : k = fdqn
      · rw [if_pos hkf] at hk
        simp only [Option.some.injEq] at hk
        exact absurd hk hz
      · rw [if_neg hkf] at hk
        exact hk

theorem ZoneIDByName_miss_fails_atomically_witness :
    demoClient.zones.get "example.com." = "" ∧
    demoClient.ZoneIDByName demoService "example.com." ⟨1, []⟩ =
      (("", some (GoError.new
          ("cloudflare dns provider: zone " ++ "example.com." ++ " not found"))),
        demoClient,
        ⟨2, (⟨1, []⟩ : Env Nat).log ++
          [Call.ListZones demoClient.clientRead (UnFqdn "example.com.")]⟩) :=
  ⟨by decide,
    (ZoneIDByName_miss_fails_atomically demoService demoClient "example.com." ⟨1, []⟩
      (by decide)).2.1 [] 2 rfl (Or.inl rfl)⟩

/-- C9: with an empty AuthToken, newClient builds one client from AuthKey and
AuthEmail for both roles, whatever ZoneToken is; with an AuthToken and a ZoneToken
that is empty or the same, one client from AuthToken for both roles; with an
AuthToken and a different, non-empty ZoneToken, an edit client from AuthToken and
a read client, another object, from ZoneToken.  The error of a constructor that
fails is returned, with no client.  Hence a metaClient that is returned has an
empty cache, and its read client is another object than its edit client if and
only if AuthToken is not empty, ZoneToken is not empty and the two differ. -/
theorem newClient_clients (lib : Library) (config : Config) (heap : Nat) :
    (config.AuthToken = "" →
      (∀ e, lib.NewErr config.AuthKey config.AuthEmail config.HTTPClient = some e →
        newClient lib config heap = (Except.error e, heap)) ∧
      (lib.NewErr config.AuthKey config.AuthEmail config.HTTPClient = none →
        ∃ m heap1, newClient lib config heap = (Except.ok m, heap1) ∧
          m.clientRead = m.clientEdit ∧
          m.clientEdit.cred = Credentials.keyEmail config.AuthKey config.AuthEmail ∧
          ∀ k, m.zones k = none) ∧
      (∀ z, newClient lib
          ⟨config.AuthEmail, config.AuthKey, config.AuthToken, z, config.HTTPClient⟩ heap =
        newClient lib config heap)) ∧
    (config.AuthToken ≠ "" →
      (config.ZoneToken = "" ∨ config.ZoneToken = config.AuthToken) →
      (∀ e, lib.NewWithAPITokenErr config.AuthToken config.HTTPClient = some e →
        newClient lib config heap = (Except.error e, heap)) ∧
      (lib.NewWithAPITokenErr config.AuthToken config.HTTPClient = none →
        ∃ m heap1, newClient lib config heap = (Except.ok m, heap1) ∧
          m.clientRead = m.clientEdit ∧
          m.clientEdit.cred = Credentials.token config.AuthToken ∧
          ∀ k, m.zones k = none)) ∧
    (config.AuthToken ≠ "" → config.ZoneToken ≠ "" →
      config.ZoneToken ≠ config.AuthToken →
      (∀ e, lib.NewWithAPITokenErr config.AuthToken config.HTTPClient = some e →
        newClient lib config heap = (Except.error e, heap)) ∧
      (lib.NewWithAPITokenErr config.AuthToken config.HTTPClient = none →
        ∀ e, lib.NewWithAPITokenErr config.ZoneToken config.HTTPClient = some e →
          newClient lib config heap = (Except.error e, heap + 1)) ∧
      (lib.NewWithAPITokenErr config.AuthToken config.HTTPClient = none →
        lib.NewWithAPITokenErr config.ZoneToken config.HTTPClient = none →
        ∃ m heap1, newClient lib config heap = (Except.ok m, heap1) ∧
          m.clientRead.addr ≠ m.clientEdit.addr ∧
          m.clientEdit.cred = Credentials.token config.AuthToken ∧
          m.clientRead.cred = Credentials.token config.ZoneToken ∧
          ∀ k, m.zones k = none)) ∧
    (∀ m heap1, newClient lib config heap = (Except.ok m, heap1) →
      (∀ k, m.zones k = none) ∧
      (m.clientRead.addr ≠ m.clientEdit.addr ↔
        config.AuthToken ≠ "" ∧ config.ZoneToken ≠ "" ∧
          config.ZoneToken ≠ config.AuthToken)) := by
  refine ⟨?_, ?_, ?_, ?_⟩
  · intro hA
    refine ⟨?_, ?_, ?_⟩
    · intro e he
      simp [newClient, hA, Library.New, he]
    · intro hn
      refine ⟨⟨⟨heap, Credentials.keyEmail config.AuthKey config.AuthEmail, config.HTTPClient⟩,
        ⟨heap, Credentials.keyEmail config.AuthKey config.AuthEmail, config.HTTPClient⟩,
        GoMap.make⟩, heap + 1, ?_, rfl, rfl, fun _ => rfl⟩
      simp [newClient, hA, Library.New, hn]
    · intro z
      simp [newClient, hA]
  · intro hA hZ
    refine ⟨?_, ?_⟩
    · intro e he
      simp [newClient, hA, Library.NewWithAPIToken, he]
    · intro hn
      refine ⟨⟨⟨heap, Credentials.token config.AuthToken, config.HTTPClient⟩,
        ⟨heap, Credentials.token config.AuthToken, config.HTTPClient⟩,
        GoMap.make⟩, heap + 1, ?_, rfl, rfl, fun _ => rfl⟩
      simp only [newClient, if_neg hA, Library.NewWithAPIToken, hn, if_pos hZ]
  · intro hA hZ1 hZ2
    have hZ : ¬ (config.ZoneToken = "" ∨ config.ZoneToken = config.AuthToken) := by
      rintro (h | h)
      · exact hZ1 h
      · exact hZ2 h
    refine ⟨?_, ?_, ?_⟩
    · intro e he
      simp [newClient, hA, Library.NewWithAPIToken, he]
    · intro hn e he
      simp only [newClient, if_neg hA, Library.NewWithAPIToken, hn, if_neg hZ, he]
    · intro hn hn2
      refine ⟨⟨⟨heap, Credentials.token config.AuthToken, config.HTTPClient⟩,
        ⟨heap + 1, Credentials.token config.ZoneToken, config.HTTPClient⟩,
        GoMap.make⟩, heap + 1 + 1, ?_, ?_, rfl, rfl, fun _ => rfl⟩
      · simp only [newClient, if_neg hA, Library.NewWithAPIToken, hn, if_neg hZ, hn2]
      · simp
  · intro m heap1 h
    obtain ⟨hz, hcases⟩ := newClient_ok h
    refine ⟨fun k => by rw [hz]; rfl, ?_⟩
    rcases hcases with ⟨hA, hsame, _⟩ | ⟨_, hZ, hsame, _⟩ | ⟨hA, hZ1, hZ2, hE, hR⟩
    · rw [hsame]
      constructor
      · intro hne; exact absurd rfl hne
      · intro hc; exact absurd hA hc.1
    · rw [hsame]
      constructor
      · intro hne; exact absurd rfl hne
      · intro hc
        rcases hZ with h0 | h0
        · exact absurd h0 hc.2.1
        · exact absurd h0 hc.2.2
    · rw [hE, hR]
      constructor
      · intro _; exact ⟨hA, hZ1, hZ2⟩
      · intro _; simp

theorem newClient_clients_witness :
    ∃ m heap1, newClient demoLibrary demoConfig 100 = (Except.ok m, heap1) ∧
      m.clientRead.addr ≠ m.clientEdit.addr ∧
      m.clientEdit.cred = Credentials.token demoConfig.AuthToken ∧
      m.clientRead.cred = Credentials.token demoConfig.ZoneToken ∧
      ∀ k, m.zones k = none :=
  (newClient_clients demoLibrary demoConfig 100).2.2.1 (by decide) (by decide) (by decide)
    |>.2.2 rfl rfl

/-- C10: CreateDNSRecord, DNSRecords and DeleteDNSRecord each make exactly one
call, on the edit client, with their own arguments, return its result as it is
and leave the metaClient as it was; ZoneIDByName only ever calls ListZones on the
read client and keeps both clients.  Hence over any sequence of operations every
ListZones call is on the read client and every record call on the edit client,
and for a metaClient of newClient whose clients are two objects the record calls
carry AuthToken, the ListZones calls carry ZoneToken, and the tokens differ. -/
theorem metaClient_credential_separation {ρ : Type} (svc : Service ρ) (m : metaClient)
    (env : Env ρ) :
    (∀ zoneID rr, m.CreateDNSRecord svc zoneID rr env =
      ((svc.CreateDNSRecord m.clientEdit zoneID rr env.remote).1,
        ⟨(svc.CreateDNSRecord m.clientEdit zoneID rr env.remote).2,
          env.log ++ [Call.CreateDNSRecord m.clientEdit zoneID rr]⟩)) ∧
    (∀ zoneID rr, m.DNSRecords svc zoneID rr env =
      ((svc.DNSRecords m.clientEdit zoneID rr env.remote).1,
        ⟨(svc.DNSRecords m.clientEdit zoneID rr env.remote).2,
          env.log ++ [Call.DNSRecords m.clientEdit zoneID rr]⟩)) ∧
    (∀ zoneID recordID, m.DeleteDNSRecord svc zoneID recordID env =
      ((svc.DeleteDNSRecord m.clientEdit zoneID recordID env.remote).1,
        ⟨(svc.DeleteDNSRecord m.clientEdit zoneID recordID env.remote).2,
          env.log ++ [Call.DeleteDNSRecord m.clientEdit zoneID recordID]⟩)) ∧
    (∀ op, (∀ fdqn, op ≠ Op.ZoneIDByName fdqn) → (step svc (m, env) op).1 = m) ∧
    (∀ fdqn,
      (m.ZoneIDByName svc fdqn env).2.1.clientEdit = m.clientEdit ∧
      (m.ZoneIDByName svc fdqn env).2.1.clientRead = m.clientRead ∧
      ∃ calls, (m.ZoneIDByName svc fdqn env).2.2.log = env.log ++ calls ∧
        ∀ c ∈ calls, c = Call.ListZones m.clientRead (UnFqdn fdqn)) ∧
    (∀ ops, ∃ calls, (run svc ops (m, env)).2.log = env.log ++ calls ∧
      ∀ c ∈ calls, c.client = if c.isListZones then m.clientRead else m.clientEdit) ∧
    (∀ lib config heap heap1, newClient lib config heap = (Except.ok m, heap1) →
      m.clientRead.addr ≠ m.clientEdit.addr →
      config.ZoneToken ≠ config.AuthToken ∧
      ∀ ops, ∃ calls, (run svc ops (m, env)).2.log = env.log ++ calls ∧
        ∀ c ∈ calls, c.client.cred =
          if c.isListZones then Credentials.token config.ZoneToken
          else Credentials.token config.AuthToken) := by
  refine ⟨fun _ _ => rfl, fun _ _ => rfl, fun _ _ => rfl, ?_, ?_, ?_, ?_⟩
  · intro op hop
    cases op with
    | CreateDNSRecord zoneID rr => rfl
    | DNSRecords zoneID rr => rfl
    | DeleteDNSRecord zoneID recordID => rfl
    | ZoneIDByName fdqn => exact absurd rfl (hop fdqn)
  · intro fdqn
    rcases ZoneIDByName_cases svc m fdqn env with ⟨_, h⟩ | ⟨_, _, _, _, _, h⟩ |
      ⟨_, _, _, _, _, h⟩ | ⟨_, _, _, _, _, _, h⟩
    · rw [h]; exact ⟨rfl, rfl, [], by simp, by simp⟩
    · rw [h]; exact ⟨rfl, rfl, [Call.ListZones m.clientRead (UnFqdn fdqn)], rfl, by simp⟩
    · rw [h]; exact ⟨rfl, rfl, [Call.ListZones m.clientRead (UnFqdn fdqn)], rfl, by simp⟩
    · rw [h]; exact ⟨rfl, rfl, [Call.ListZones m.clientRead (UnFqdn fdqn)], rfl, by simp⟩
  · intro ops
    exact (run_calls svc ops (m, env)).2.2
  · intro lib config heap heap1 hnew hdiff
    obtain ⟨_, hcases⟩ := newClient_ok hnew
    rcases hcases with ⟨_, hsame, _⟩ | ⟨_, _, hsame, _⟩ | ⟨_, _, hZ2, hE, hR⟩
    · rw [hsame] at hdiff; exact absurd rfl hdiff
    · rw [hsame] at hdiff; exact absurd rfl hdiff
    · refine ⟨hZ2, ?_⟩
      intro ops
      obtain ⟨calls, hlog, hc⟩ := (run_calls svc ops (m, env)).2.2
      refine ⟨calls, hlog, ?_⟩
      intro c hcm
      rw [hc c hcm]
      cases c.isListZones
      · simp [hE]
      · simp [hR]

theorem metaClient_credential_separation_witness :
    demoConfig.ZoneToken ≠ demoConfig.AuthToken ∧
    ∀ ops, ∃ calls, (run demoService ops (demoClient, demoEnv)).2.log =
        demoEnv.log ++ calls ∧
      ∀ c ∈ calls, c.client.cred =
        if c.isListZones then Credentials.token demoConfig.ZoneToken
        else Credentials.token demoConfig.AuthToken :=
  (metaClient_credential_separation demoService demoClient demoEnv).2.2.2.2.2.2
    demoLibrary demoConfig 100 102 rfl (by decide)

end Cloudflare
